import Mathlib

/-!
Verification of the ConsoleTetris rules engine.

This file gives a shallow embedding of the core game logic of the
repository (piece catalog, kick tables, bounds predicates, the active
piece's move/rotate operations, the playfield matrix, the next-piece
sequencer and the game-state command dispatcher) and proves the
specified properties about it.

Coordinates follow the source: `x` is the column, `y` grows upward
(`y = 0` is the floor row), grids are stored row-major with row `0` at
the top of the local grid; the enumeration of a grid's occupied cells
maps a cell at `(row, col)` to the tile `(x = col, y = -row)` and a
falling piece's absolute cells are that enumeration translated by its
anchor `(x_pos, y_pos)`.
-/

namespace ConsoleTetris

/-- Terminal color; the source stores `ratatui` indexed-palette values,
modelled as the palette index. -/
abbrev Color := Nat

/-- Palette index of the I piece (`I_COLOR` in `tetramino.rs`). -/
def I_COLOR : Color := 51

/-- Palette index of the J piece. -/
def J_COLOR : Color := 33

/-- Palette index of the L piece. -/
def L_COLOR : Color := 208

/-- Palette index of the O piece. -/
def O_COLOR : Color := 226

/-- Palette index of the S piece. -/
def S_COLOR : Color := 40

/-- Palette index of the T piece. -/
def T_COLOR : Color := 128

/-- Palette index of the Z piece. -/
def Z_COLOR : Color := 160

/-- Direction of a rotation command (`game_io.rs` / `game_handler.rs`). -/
inductive RotationDirection where
  | Clockwise
  | Counterclockwise
deriving DecidableEq

/-- The facing of a piece or grid (`Rotation` in `tetramino.rs`,
renamed `Facing` in the newer modules). -/
inductive Rotation where
  | North
  | East
  | South
  | West
deriving DecidableEq

/-- Alias used by `matrix.rs`, which calls the same state `Facing`. -/
abbrev Facing := Rotation

/-- Successor facing in the given direction (`Rotation::rotated`). -/
def Rotation.rotated (r : Rotation) (rotation_direction : RotationDirection) : Rotation :=
  match rotation_direction with
  | .Clockwise =>
    match r with
    | .North => .East
    | .East => .South
    | .South => .West
    | .West => .North
  | .Counterclockwise =>
    match r with
    | .North => .West
    | .East => .North
    | .South => .East
    | .West => .South

/-- The discriminant of a facing (`origin_rotation as usize` in the source). -/
def Rotation.toIndex : Rotation → Nat
  | .North => 0
  | .East => 1
  | .South => 2
  | .West => 3

/-- The seven piece kinds (`TetraminoType` in `tetramino.rs`). -/
inductive TetraminoType where
  | I
  | J
  | L
  | O
  | S
  | T
  | Z
deriving DecidableEq

/-- The static kick-offset table for a piece kind: one row per facing
(North = 0 .. West = 3).  Shared table for J/L/S/T/Z, a distinct table
for I, and a single-column table for O (`tetramino.rs`, the
`offset_table` local of `get_kick_offset_data`). -/
def TetraminoType.offset_table (t : TetraminoType) : List (List (Int × Int)) :=
  match t with
  | .J | .L | .S | .T | .Z =>
    [[(0, 0), (0, 0), (0, 0), (0, 0), (0, 0)],
     [(0, 0), (1, 0), (1, 1), (0, -2), (1, -2)],
     [(0, 0), (0, 0), (0, 0), (0, 0), (0, 0)],
     [(0, 0), (-1, 0), (-1, 1), (0, -2), (-1, -2)]]
  | .I =>
    [[(0, 0), (-1, 0), (2, 0), (-1, 0), (2, 0)],
     [(-1, 0), (0, 0), (0, 0), (0, -1), (0, 2)],
     [(-1, -1), (1, -1), (-2, -1), (1, 0), (-2, 0)],
     [(0, -1), (0, -1), (0, -1), (0, 1), (0, -2)]]
  | .O =>
    [[(0, 0)], [(0, 1)], [(-1, 1)], [(-1, 0)]]

/-- Kick offsets for a rotation between two facings, to be tried
sequentially: the element-wise difference of the table row at the
origin facing and the row at the target facing
(`TetraminoType::get_kick_offset_data`). -/
def TetraminoType.get_kick_offset_data (t : TetraminoType)
    (origin_rotation target_rotation : Rotation) : List (Int × Int) :=
  List.zipWith
    (fun (origin : Int × Int) (target : Int × Int) =>
      (origin.1 - target.1, origin.2 - target.2))
    (t.offset_table.getD origin_rotation.toIndex [])
    (t.offset_table.getD target_rotation.toIndex [])

/-- An absolute occupied cell: column `x`, row `y` (upward), color
(`Tile` in `graphics.rs` of the generation `tetramino.rs` belongs to). -/
structure Tile where
  x : Int
  y : Int
  color : Color
deriving DecidableEq

/-- A rectangular grid of optional colors (`Grid<Option<Color>>`,
aliased `TileGrid` / `MinoGrid` in `game.rs`), carrying its dimensions. -/
structure TileGrid where
  rows : Nat
  cols : Nat
  cells : List (List (Option Color))
deriving DecidableEq

/-- Fresh all-empty grid (`Grid::new(rows, cols)`). -/
def TileGrid.new (rows cols : Nat) : TileGrid :=
  ⟨rows, cols, List.replicate rows (List.replicate cols none)⟩

/-- Enumeration of the non-empty cells of a grid as tiles, mapping a
cell at `(row, col)` to `(x = col, y = -row)` (the `MinoGridMap`
implementation for `MinoGrid` in `game.rs`, lines 29-47). -/
def TileGrid.get_tiles (g : TileGrid) : List Tile :=
  g.cells.enum.flatMap fun rowPair =>
    rowPair.2.enum.filterMap fun colPair =>
      colPair.2.map fun color => ⟨(colPair.1 : Int), -(rowPair.1 : Int), color⟩

/-- Write one cell of a grid in place; used by the rotation transform,
whose writes are always inside the fresh grid's dimensions. -/
def TileGrid.setCell (g : TileGrid) (r c : Nat) (v : Option Color) : TileGrid :=
  { g with cells := g.cells.set r ((g.cells.getD r []).set c v) }

/-- The shared 90-degree grid transform (`Tetramino::rotate` lines
292-310, duplicated as `Matrix::rotated` in `matrix.rs`): a fresh grid
with swapped dimensions, and every original cell `(row, col)` written
to `(col, rows - row - 1)` for clockwise or `(cols - col - 1, row)` for
counter-clockwise. -/
def TileGrid.rotatedGrid (g : TileGrid) (rotation_direction : RotationDirection) : TileGrid :=
  let rows := g.rows
  let cols := g.cols
  g.cells.enum.foldl
    (fun acc rowPair =>
      rowPair.2.enum.foldl
        (fun acc2 colPair =>
          acc2.setCell
            (match rotation_direction with
             | .Clockwise => colPair.1
             | .Counterclockwise => cols - colPair.1 - 1)
            (match rotation_direction with
             | .Clockwise => rows - rowPair.1 - 1
             | .Counterclockwise => rowPair.1)
            colPair.2)
        acc)
    (TileGrid.new cols rows)

/-- Playfield width in columns (`MATRIX_WIDTH`). -/
def MATRIX_WIDTH : Nat := 10

/-- Playfield height in rows (`MATRIX_HEIGHT`). -/
def MATRIX_HEIGHT : Nat := 20

/-- Column outside the left bound (`x_position_outside_left_bound!`). -/
def x_position_outside_left_bound (x : Int) : Bool :=
  decide (x < 0)

/-- Column outside the right bound (`x_position_outside_right_bound!`). -/
def x_position_outside_right_bound (x : Int) : Bool :=
  decide (x ≥ (MATRIX_WIDTH : Int))

/-- Column outside either horizontal bound (`x_position_outside_bounds!`). -/
def x_position_outside_bounds (x : Int) : Bool :=
  x_position_outside_left_bound x || x_position_outside_right_bound x

/-- Row below the floor (`y_position_outside_bottom_bound!`). -/
def y_position_outside_bottom_bound (y : Int) : Bool :=
  decide (y < 0)

/-- Row above the visible field (`y_position_outside_top_bound!`). -/
def y_position_outside_top_bound (y : Int) : Bool :=
  decide (y ≥ (MATRIX_HEIGHT : Int))

/-- Row outside either vertical bound (`y_position_outside_bounds!`). -/
def y_position_outside_bounds (y : Int) : Bool :=
  y_position_outside_top_bound y || y_position_outside_bottom_bound y

/-- Gameplay bounds check, excluding the top (`position_outside_bounds!`
in `matrix.rs` lines 99-104): used while a piece is moving or rotating. -/
def position_outside_bounds (x y : Int) : Bool :=
  x_position_outside_bounds x || y_position_outside_bottom_bound y

/-- Render bounds check, including the top
(`position_outside_render_bounds!` in `matrix.rs` lines 113-118). -/
def position_outside_render_bounds (x y : Int) : Bool :=
  x_position_outside_bounds x || y_position_outside_bounds y

/-- The empty game playfield (`new_matrix!()`:
`Grid::new(MATRIX_HEIGHT, MATRIX_WIDTH)`). -/
def new_matrix : TileGrid :=
  TileGrid.new MATRIX_HEIGHT MATRIX_WIDTH

/-- The active falling piece (`Tetramino` in `tetramino.rs`): its kind,
materialized shape grid, current facing and anchor position. -/
structure Tetramino where
  tetramino_type : TetraminoType
  tile_grid : TileGrid
  rotation : Rotation
  x_pos : Int
  y_pos : Int
deriving DecidableEq

/-- Spawn a fresh piece of the given kind: the catalog North-facing
shape grid, the kind's fixed spawn column and the top row
(`Tetramino::new`). -/
def Tetramino.new (piece : TetraminoType) : Tetramino :=
  { tetramino_type := piece
    tile_grid :=
      match piece with
      | .I =>
        ⟨5, 5,
         [[none, none, none, none, none],
          [none, none, none, none, none],
          [none, some I_COLOR, some I_COLOR, some I_COLOR, some I_COLOR],
          [none, none, none, none, none],
          [none, none, none, none, none]]⟩
      | .L =>
        ⟨3, 3,
         [[none, none, some L_COLOR],
          [some L_COLOR, some L_COLOR, some L_COLOR],
          [none, none, none]]⟩
      | .J =>
        ⟨3, 3,
         [[some J_COLOR, none, none],
          [some J_COLOR, some J_COLOR, some J_COLOR],
          [none, none, none]]⟩
      | .O =>
        ⟨3, 3,
         [[none, some O_COLOR, some O_COLOR],
          [none, some O_COLOR, some O_COLOR],
          [none, none, none]]⟩
      | .S =>
        ⟨3, 3,
         [[none, some S_COLOR, some S_COLOR],
          [some S_COLOR, some S_COLOR, none],
          [none, none, none]]⟩
      | .T =>
        ⟨3, 3,
         [[none, some T_COLOR, none],
          [some T_COLOR, some T_COLOR, some T_COLOR],
          [none, none, none]]⟩
      | .Z =>
        ⟨3, 3,
         [[some Z_COLOR, some Z_COLOR, none],
          [none, some Z_COLOR, some Z_COLOR],
          [none, none, none]]⟩
    rotation := .North
    x_pos :=
      match piece with
      | .I => 3
      | .J => 3
      | .L => 3
      | .O => 4
      | .S => 3
      | .T => 3
      | .Z => 3
    y_pos := (MATRIX_HEIGHT : Int) - 1 }

/-- The piece's absolute occupied cells: the shape grid's tiles
translated by the anchor (`TileGridMap` implementation for `Tetramino`). -/
def Tetramino.get_tiles (t : Tetramino) : List Tile :=
  t.tile_grid.get_tiles.map fun tile =>
    ⟨t.x_pos + tile.x, t.y_pos + tile.y, tile.color⟩

/-- Collision test after a translation (`Tetramino::position_invalid`):
collects every tile that would be outside the gameplay bounds or on an
occupied board cell; `none` means the position is valid. -/
def Tetramino.position_invalid (t : Tetramino) (x_offset y_offset : Int)
    (board_tile_grid : TileGrid) : Option (List Tile) :=
  let collision := t.get_tiles.filter fun tile =>
    let x := tile.x + x_offset
    let y := tile.y + y_offset
    position_outside_bounds x y ||
      board_tile_grid.get_tiles.any fun board_tile =>
        decide (x = board_tile.x) && decide (y = board_tile.y)
  if collision.isEmpty then none else some collision

/-- Attempted translation (`Tetramino::move_position`): reports failure
and leaves the piece unchanged when the target position is invalid,
otherwise moves the anchor by the delta and reports success. -/
def Tetramino.move_position (t : Tetramino) (x y : Int) (board_tile_grid : TileGrid) :
    Bool × Tetramino :=
  if (t.position_invalid x y board_tile_grid).isSome then
    (false, t)
  else
    (true, { t with x_pos := t.x_pos + x, y_pos := t.y_pos + y })

/-- The kick loop of `Tetramino::rotate`: try each offset in order via
`move_position`, returning the moved piece at the first success. -/
def tryKickOffsets (board_tile_grid : TileGrid) (t : Tetramino) :
    List (Int × Int) → Option Tetramino
  | [] => none
  | (x, y) :: rest =>
    match t.move_position x y board_tile_grid with
    | (true, moved) => some moved
    | (false, _) => tryKickOffsets board_tile_grid t rest

/-- Attempted rotation (`Tetramino::rotate`): snapshot the shape grid
and facing, replace them by the rotated transform and successor facing,
try the kick offsets in order, and on total failure restore the
snapshot. -/
def Tetramino.rotate (t : Tetramino) (rotation_direction : RotationDirection)
    (board_tile_grid : TileGrid) : Tetramino :=
  let original_tiles := t.tile_grid
  let original_rotation := t.rotation
  let turned : Tetramino :=
    { t with
      tile_grid := t.tile_grid.rotatedGrid rotation_direction
      rotation := t.rotation.rotated rotation_direction }
  match tryKickOffsets board_tile_grid turned
      (t.tetramino_type.get_kick_offset_data original_rotation turned.rotation) with
  | some placed => placed
  | none => { turned with tile_grid := original_tiles, rotation := original_rotation }

/-- An occupied playfield cell as `matrix.rs` names it: column, row
(both as signed values) and color (`Mino`). -/
structure Mino where
  col : Int
  row : Int
  color : Color
deriving DecidableEq

/-- The playfield of the newest generation (`Matrix` in `matrix.rs`):
dimensions, the cell grid and an orientation bookkeeping facing. -/
structure Matrix where
  rows : Nat
  cols : Nat
  matrix : List (List (Option Color))
  rotation : Facing
deriving DecidableEq

/-- Fresh all-empty matrix (`Matrix::new`). -/
def Matrix.new (rows cols : Nat) (rotation : Facing) : Matrix :=
  ⟨rows, cols, List.replicate rows (List.replicate cols none), rotation⟩

/-- Bounds-checked cell read (`Matrix::get_mino`): `none` for an
out-of-range index or an empty cell, otherwise the stored color tagged
with its own coordinates. -/
def Matrix.get_mino (m : Matrix) (row col : Nat) : Option Mino :=
  match (m.matrix.get? row).bind fun r => r.get? col with
  | some mino => mino.map fun color => ⟨(col : Int), (row : Int), color⟩
  | none => none

/-- Cell write used when locking a piece (`Matrix::set_mino`): an
out-of-render-bounds cell is silently discarded; otherwise the cell is
written by direct indexing, `none` modelling the panic an out-of-range
index of the underlying grid would raise. -/
def Matrix.set_mino (m : Matrix) (mino : Mino) : Option Matrix :=
  if position_outside_render_bounds mino.col mino.row then
    some m
  else
    match m.matrix.get? mino.row.toNat with
    | none => none
    | some rowList =>
      if mino.col.toNat < rowList.length then
        some { m with
          matrix := m.matrix.set mino.row.toNat (rowList.set mino.col.toNat (some mino.color)) }
      else
        none

/-- Well-formedness of a matrix: the stored dimensions describe the
cell grid, as guaranteed by every constructor in `matrix.rs`. -/
def MatrixWF (m : Matrix) : Prop :=
  m.matrix.length = m.rows ∧ ∀ r ∈ m.matrix, r.length = m.cols

instance (m : Matrix) : Decidable (MatrixWF m) := by
  unfold MatrixWF
  infer_instance

/-- Modelled from the spec: `Tetrimino::all`, the catalog enumeration
used to refill the bag, is absent from the sources (only its caller
`NextQueue::next_bag` is present); per section 4.1 it returns each of
the seven kinds exactly once. -/
def TetraminoType.all : List TetraminoType :=
  [.I, .J, .L, .O, .S, .T, .Z]

/-- The next-piece sequencer (`NextQueue` in `game.rs`): the look-ahead
queue, the working bag, and a counter indexing the injected family of
shuffles (standing for the thread-local random generator). -/
structure NextQueue where
  queue : List TetraminoType
  bag : List TetraminoType
  rng : Nat
deriving DecidableEq

/-- One bag draw (`NextQueue::next_bag`): refill the bag with a
freshly shuffled catalog exactly when it is empty, then pop from the
back of the bag; `none` models the panic of popping an empty vector. -/
def NextQueue.next_bag (sh : Nat → List TetraminoType) (s : NextQueue) :
    Option (TetraminoType × NextQueue) :=
  let bagrng : List TetraminoType × Nat :=
    if s.bag.isEmpty then (sh s.rng, s.rng + 1) else (s.bag, s.rng)
  match bagrng.1.getLast? with
  | some t => some (t, ⟨s.queue, bagrng.1.dropLast, bagrng.2⟩)
  | none => none

/-- One sequencer draw (`NextQueue::next`): move a bag draw to the back
of the queue, then pop the front of the queue. -/
def NextQueue.next (sh : Nat → List TetraminoType) (s : NextQueue) :
    Option (TetraminoType × NextQueue) :=
  match s.next_bag sh with
  | none => none
  | some (t, s1) =>
    match s1.queue ++ [t] with
    | [] => none
    | q :: rest => some (q, ⟨rest, s1.bag, s1.rng⟩)

/-- Iterated bag draws, threading the state and collecting the drawn
kinds (the `(0..6).map(|_| queue.next_bag())` loop shape). -/
def drawsBag (sh : Nat → List TetraminoType) :
    Nat → NextQueue → Option (List TetraminoType × NextQueue)
  | 0, s => some ([], s)
  | Nat.succ n, s =>
    match s.next_bag sh with
    | none => none
    | some (t, s1) =>
      match drawsBag sh n s1 with
      | none => none
      | some (ts, s2) => some (t :: ts, s2)

/-- Freshly constructed sequencer (`NextQueue::default`): six bag draws
appended to an initially empty queue. -/
def NextQueue.mkDefault (sh : Nat → List TetraminoType) : Option NextQueue :=
  match drawsBag sh 6 ⟨[], [], 0⟩ with
  | none => none
  | some (outs, s) => some ⟨s.queue ++ outs, s.bag, s.rng⟩

/-- Iterated sequencer draws, threading the state and collecting the
produced kinds. -/
def draws (sh : Nat → List TetraminoType) :
    Nat → NextQueue → Option (List TetraminoType × NextQueue)
  | 0, s => some ([], s)
  | Nat.succ n, s =>
    match s.next sh with
    | none => none
    | some (t, s1) =>
      match draws sh n s1 with
      | none => none
      | some (ts, s2) => some (t :: ts, s2)

/-- The sequencer state at a bag boundary after `j` whole bags have
been fed through the queue: the queue holds the last six draws of bag
`j`, the bag holds its one remaining kind, and the generator is
positioned at bag `j + 1`. -/
def blockState (sh : Nat → List TetraminoType) (j : Nat) : NextQueue :=
  ⟨((sh j).reverse).take 6, (sh j).take 1, j + 1⟩

/-- A movement command (`Movement` in `game_io.rs` / `game_handler.rs`). -/
inductive Movement where
  | Rotate (dir : RotationDirection)
  | Left
  | Right
  | Down
  | Drop
deriving DecidableEq

/-- The game state owning the active piece and the playfield
(`GameState` in `game.rs`). -/
structure GameState where
  running : Bool
  tetrimino : Tetramino
  next_queue : NextQueue
  matrix : TileGrid
deriving DecidableEq

/-- Command dispatch (`GameState::apply_movement`): Left/Right/Down go
to `move_position` with the corresponding delta, Rotate goes to
`rotate`, Drop returns immediately; the Rust function's return value is
the unit value in every arm (each arm discards the move result). -/
def GameState.apply_movement (gs : GameState) (movement : Movement) : GameState × Unit :=
  match movement with
  | .Rotate rotation => ({ gs with tetrimino := gs.tetrimino.rotate rotation gs.matrix }, ())
  | .Left => ({ gs with tetrimino := (gs.tetrimino.move_position (-1) 0 gs.matrix).2 }, ())
  | .Right => ({ gs with tetrimino := (gs.tetrimino.move_position 1 0 gs.matrix).2 }, ())
  | .Down => ({ gs with tetrimino := (gs.tetrimino.move_position 0 (-1) gs.matrix).2 }, ())
  | .Drop => (gs, ())

/-! ### Concrete scenario states used by witnesses and counterexamples -/

/-- A concrete game state whose piece sits against the left wall, so a
Left command is rejected. -/
def gsLeftWall : GameState :=
  ⟨true, { Tetramino.new .T with x_pos := 0 }, ⟨[], [], 0⟩, new_matrix⟩

/-- An O piece resting on the floor: its single kick candidate moves it
one row down, so rotation is impossible. -/
def oStuck : Tetramino :=
  { Tetramino.new .O with y_pos := 0 }

/-- A playfield with two occupied cells on the floor row, at columns 4
and 6, blocking the first two kick candidates of `pieceKick`. -/
def boardKick : TileGrid :=
  ⟨20, 10,
   [[none, none, none, none, some 7, none, some 7, none, none, none]] ++
     List.replicate 19 (List.replicate 10 none)⟩

/-- An I piece low over the two stones of `boardKick`: rotating it
clockwise collides at the first two kick candidates and succeeds at the
third. -/
def pieceKick : Tetramino :=
  { Tetramino.new .I with x_pos := 3, y_pos := 4 }

/-- A T piece hovering entirely above the visible playfield. -/
def highPiece : Tetramino :=
  { Tetramino.new .T with y_pos := 25 }

/-- The identity shuffle family: every refill is the catalog order. -/
def shAll : Nat → List TetraminoType := fun _ => TetraminoType.all

/-- A small concrete matrix with a single occupied cell at row 0,
column 0. -/
def mtxSmall : Matrix :=
  ⟨2, 2, [[some 5, none], [none, none]], .North⟩

/-! ### Helper lemmas about collision testing and movement -/

/-- A translated position of the piece is valid exactly when every
absolute cell, shifted by the delta, is inside the gameplay bounds and
off every occupied board cell. -/
lemma position_invalid_eq_none_iff (t : Tetramino) (dx dy : Int) (b : TileGrid) :
    t.position_invalid dx dy b = none ↔
      ∀ tile ∈ t.get_tiles,
        ¬(tile.x + dx < 0 ∨ (10 : Int) ≤ tile.x + dx ∨ tile.y + dy < 0 ∨
          ∃ bt ∈ b.get_tiles, tile.x + dx = bt.x ∧ tile.y + dy = bt.y) := by
  have hif : ∀ (l : List Tile),
      (if l.isEmpty then (none : Option (List Tile)) else some l) = none ↔ l = [] := by
    intro l
    cases l <;> simp
  unfold Tetramino.position_invalid
  rw [hif, List.filter_eq_nil_iff]
  refine forall₂_congr fun tile htile => ?_
  simp only [position_outside_bounds, x_position_outside_bounds, x_position_outside_left_bound,
    x_position_outside_right_bound, y_position_outside_bottom_bound, MATRIX_WIDTH,
    List.any_eq_true, not_or, Bool.or_eq_true, decide_eq_true_eq, Bool.and_eq_true,
    not_exists, not_and, not_lt, not_le, Nat.cast_ofNat]
  tauto

/-- `move_position` on an invalid target reports failure and leaves the
piece untouched. -/
lemma move_position_of_invalid (t : Tetramino) (x y : Int) (b : TileGrid)
    (h : t.position_invalid x y b ≠ none) :
    t.move_position x y b = (false, t) := by
  rw [Option.ne_none_iff_isSome] at h
  simp [Tetramino.move_position, h]

/-- `move_position` on a valid target reports success and shifts the
anchor by exactly the delta. -/
lemma move_position_of_valid (t : Tetramino) (x y : Int) (b : TileGrid)
    (h : t.position_invalid x y b = none) :
    t.move_position x y b = (true, { t with x_pos := t.x_pos + x, y_pos := t.y_pos + y }) := by
  simp [Tetramino.move_position, h]

/-- The kick loop either fails with every candidate invalid, or applies
exactly one candidate, which must be valid. -/
lemma tryKickOffsets_total (b : TileGrid) (t : Tetramino) :
    ∀ ks : List (Int × Int),
      (tryKickOffsets b t ks = none ∧ ∀ k ∈ ks, t.position_invalid k.1 k.2 b ≠ none) ∨
      (∃ k ∈ ks, t.position_invalid k.1 k.2 b = none ∧
        tryKickOffsets b t ks =
          some { t with x_pos := t.x_pos + k.1, y_pos := t.y_pos + k.2 }) := by
  intro ks
  induction ks with
  | nil => exact Or.inl ⟨rfl, by simp⟩
  | cons head rest ih =>
    obtain ⟨hx, hy⟩ := head
    by_cases h : t.position_invalid hx hy b = none
    · refine Or.inr ⟨(hx, hy), List.mem_cons_self _ _, h, ?_⟩
      simp [tryKickOffsets, move_position_of_valid t hx hy b h]
    · have hmove := move_position_of_invalid t hx hy b h
      rcases ih with ⟨hnone, hall⟩ | ⟨k, hk, hkvalid, hksome⟩
      · refine Or.inl ⟨?_, ?_⟩
        · simp [tryKickOffsets, hmove, hnone]
        · intro k hk
          rcases List.mem_cons.mp hk with hk | hk
          · simpa [hk] using h
          · exact hall k hk
      · refine Or.inr ⟨k, List.mem_cons.mpr (Or.inr hk), hkvalid, ?_⟩
        simp [tryKickOffsets, hmove, hksome]

/-- Unfolding of `rotate` to its kick-loop core. -/
lemma rotate_eq_match (t : Tetramino) (d : RotationDirection) (b : TileGrid) :
    t.rotate d b =
      match tryKickOffsets b
          { t with tile_grid := t.tile_grid.rotatedGrid d, rotation := t.rotation.rotated d }
          (t.tetramino_type.get_kick_offset_data t.rotation (t.rotation.rotated d)) with
      | some placed => placed
      | none => t := by
  unfold Tetramino.rotate
  rfl

/-! ### Theorems for the individual claims -/

/-- C1: `rotate` either fully applies the rotation — shape grid
replaced by its 90-degree transform, facing advanced one step, anchor
shifted by exactly one (valid) kick candidate — or, when every kick
candidate is invalid, it is a complete no-op leaving anchor, shape grid
and facing exactly as before. -/
theorem rotate_applies_fully_or_noop (t : Tetramino) (d : RotationDirection) (b : TileGrid) :
    (t.rotate d b = t ∧
      ∀ k ∈ t.tetramino_type.get_kick_offset_data t.rotation (t.rotation.rotated d),
        Tetramino.position_invalid
          { t with tile_grid := t.tile_grid.rotatedGrid d, rotation := t.rotation.rotated d }
          k.1 k.2 b ≠ none) ∨
    (∃ k ∈ t.tetramino_type.get_kick_offset_data t.rotation (t.rotation.rotated d),
      Tetramino.position_invalid
        { t with tile_grid := t.tile_grid.rotatedGrid d, rotation := t.rotation.rotated d }
        k.1 k.2 b = none ∧
      t.rotate d b =
        { t with tile_grid := t.tile_grid.rotatedGrid d, rotation := t.rotation.rotated d,
                 x_pos := t.x_pos + k.1, y_pos := t.y_pos + k.2 }) := by
  rcases tryKickOffsets_total b
      { t with tile_grid := t.tile_grid.rotatedGrid d, rotation := t.rotation.rotated d }
      (t.tetramino_type.get_kick_offset_data t.rotation (t.rotation.rotated d)) with
    ⟨hnone, hall⟩ | ⟨k, hk, hkvalid, hksome⟩
  · refine Or.inl ⟨?_, hall⟩
    rw [rotate_eq_match, hnone]
  · refine Or.inr ⟨k, hk, hkvalid, ?_⟩
    rw [rotate_eq_match, hksome]

/-- C2: `move_position` fails and leaves the anchor unchanged exactly
when some translated cell is outside the gameplay bounds (column
below 0 or at least 10, or row below 0) or on an occupied board cell;
otherwise it succeeds and shifts the anchor by exactly the delta. -/
theorem move_position_spec (t : Tetramino) (x y : Int) (b : TileGrid) :
    ((∃ tile ∈ t.get_tiles,
        tile.x + x < 0 ∨ (10 : Int) ≤ tile.x + x ∨ tile.y + y < 0 ∨
          ∃ bt ∈ b.get_tiles, tile.x + x = bt.x ∧ tile.y + y = bt.y) →
      t.move_position x y b = (false, t)) ∧
    ((∀ tile ∈ t.get_tiles,
        ¬(tile.x + x < 0 ∨ (10 : Int) ≤ tile.x + x ∨ tile.y + y < 0 ∨
          ∃ bt ∈ b.get_tiles, tile.x + x = bt.x ∧ tile.y + y = bt.y)) →
      t.move_position x y b =
        (true, { t with x_pos := t.x_pos + x, y_pos := t.y_pos + y })) := by
  constructor
  · rintro ⟨tile, htile, hoff⟩
    refine move_position_of_invalid t x y b fun hnone => ?_
    exact (position_invalid_eq_none_iff t x y b).mp hnone tile htile hoff
  · intro hall
    exact move_position_of_valid t x y b ((position_invalid_eq_none_iff t x y b).mpr hall)

/-- C3: the kick candidates are tried strictly in the order returned by
the kick table: whenever the 0th and 1st candidates would collide but
the 2nd would not, the rotation succeeds and applies exactly the 2nd
candidate's offset to the anchor. -/
theorem rotate_kick_order (t : Tetramino) (d : RotationDirection) (b : TileGrid)
    (hlen : 2 < (t.tetramino_type.get_kick_offset_data t.rotation (t.rotation.rotated d)).length)
    (h0 : Tetramino.position_invalid
      { t with tile_grid := t.tile_grid.rotatedGrid d, rotation := t.rotation.rotated d }
      ((t.tetramino_type.get_kick_offset_data t.rotation (t.rotation.rotated d)).getD 0 (0, 0)).1
      ((t.tetramino_type.get_kick_offset_data t.rotation (t.rotation.rotated d)).getD 0 (0, 0)).2
      b ≠ none)
    (h1 : Tetramino.position_invalid
      { t with tile_grid := t.tile_grid.rotatedGrid d, rotation := t.rotation.rotated d }
      ((t.tetramino_type.get_kick_offset_data t.rotation (t.rotation.rotated d)).getD 1 (0, 0)).1
      ((t.tetramino_type.get_kick_offset_data t.rotation (t.rotation.rotated d)).getD 1 (0, 0)).2
      b ≠ none)
    (h2 : Tetramino.position_invalid
      { t with tile_grid := t.tile_grid.rotatedGrid d, rotation := t.rotation.rotated d }
      ((t.tetramino_type.get_kick_offset_data t.rotation (t.rotation.rotated d)).getD 2 (0, 0)).1
      ((t.tetramino_type.get_kick_offset_data t.rotation (t.rotation.rotated d)).getD 2 (0, 0)).2
      b = none) :
    t.rotate d b =
      { t with tile_grid := t.tile_grid.rotatedGrid d, rotation := t.rotation.rotated d,
               x_pos := t.x_pos +
                 ((t.tetramino_type.get_kick_offset_data t.rotation
                   (t.rotation.rotated d)).getD 2 (0, 0)).1,
               y_pos := t.y_pos +
                 ((t.tetramino_type.get_kick_offset_data t.rotation
                   (t.rotation.rotated d)).getD 2 (0, 0)).2 } := by
  rcases hks : t.tetramino_type.get_kick_offset_data t.rotation (t.rotation.rotated d) with
    _ | ⟨k0, _ | ⟨k1, _ | ⟨k2, rest⟩⟩⟩
  · rw [hks] at hlen
    simp at hlen
  · rw [hks] at hlen
    simp at hlen
  · rw [hks] at hlen
    simp at hlen
  · rw [hks] at h0 h1 h2
    simp only [List.getD_cons_zero, List.getD_cons_succ] at h0 h1 h2
    obtain ⟨x0, y0⟩ := k0
    obtain ⟨x1, y1⟩ := k1
    obtain ⟨x2, y2⟩ := k2
    rw [rotate_eq_match, hks]
    simp only [tryKickOffsets,
      move_position_of_invalid _ _ _ _ h0,
      move_position_of_invalid _ _ _ _ h1,
      move_position_of_valid _ _ _ _ h2]
    simp [List.getD_cons_zero, List.getD_cons_succ]

/-- C4 (amended): every kick candidate is the element-wise,
column-by-column difference of the static table rows at the origin and
target facings, and the candidate list has exactly 5 entries for the
J/L/S/T/Z and I categories but exactly 1 entry for O. -/
theorem get_kick_offset_data_spec (t : TetraminoType) (o tg : Rotation) :
    ((t.get_kick_offset_data o tg).length = if t = TetraminoType.O then 1 else 5) ∧
    ∀ i, ∀ hi : i < (t.get_kick_offset_data o tg).length,
      (t.get_kick_offset_data o tg).get ⟨i, hi⟩ =
        (((t.offset_table.getD o.toIndex []).getD i (0, 0)).1 -
            ((t.offset_table.getD tg.toIndex []).getD i (0, 0)).1,
          ((t.offset_table.getD o.toIndex []).getD i (0, 0)).2 -
            ((t.offset_table.getD tg.toIndex []).getD i (0, 0)).2) := by
  cases t <;> cases o <;> cases tg <;> exact ⟨by decide, by decide⟩

/-- C4 counterexample: for the O piece the candidate list does not have
5 entries (it has exactly 1). -/
theorem kick_offsets_O_not_five :
    (TetraminoType.O.get_kick_offset_data Rotation.North Rotation.East).length ≠ 5 := by
  decide

/-- C5: the gameplay bounds predicate rejects a position exactly when
the column is below 0 or at least 10 or the row is below 0 — a row at
or above the visible height alone is not rejected — and consequently a
piece entirely above the visible playfield is a valid position while
moving (its collision test over the empty field reports no offender). -/
theorem gameplay_bounds_spec :
    (∀ x y : Int, position_outside_bounds x y = true ↔ x < 0 ∨ (10 : Int) ≤ x ∨ y < 0) ∧
    (∀ t : Tetramino,
      (∀ tile ∈ t.get_tiles, 0 ≤ tile.x ∧ tile.x < 10 ∧ 0 ≤ tile.y) →
      t.position_invalid 0 0 new_matrix = none) := by
  constructor
  · intro x y
    simp [position_outside_bounds, x_position_outside_bounds, x_position_outside_left_bound,
      x_position_outside_right_bound, y_position_outside_bottom_bound, MATRIX_WIDTH, or_assoc]
  · intro t ht
    rw [position_invalid_eq_none_iff]
    intro tile htile
    obtain ⟨hx0, hx10, hy0⟩ := ht tile htile
    have hempty : new_matrix.get_tiles = [] := by decide
    simp [hempty]
    omega

/-- C7: from the spawn state in the empty playfield, four successive
clockwise rotations all succeed (the facing advances East, South, West)
and return the piece to its original shape grid, facing and anchor. -/
theorem rotation_round_trip (k : TetraminoType) :
    ((((Tetramino.new k).rotate .Clockwise new_matrix).rotate .Clockwise
          new_matrix).rotate .Clockwise new_matrix).rotate .Clockwise new_matrix =
        Tetramino.new k ∧
    ((Tetramino.new k).rotate .Clockwise new_matrix).rotation = Rotation.East ∧
    (((Tetramino.new k).rotate .Clockwise new_matrix).rotate .Clockwise
        new_matrix).rotation = Rotation.South ∧
    ((((Tetramino.new k).rotate .Clockwise new_matrix).rotate .Clockwise
        new_matrix).rotate .Clockwise new_matrix).rotation = Rotation.West := by
  cases k <;> exact ⟨by decide, by decide, by decide, by decide⟩

/-- C8: writing a cell into the playfield silently discards any cell
outside the render bounds (the matrix is returned unchanged) and
otherwise writes exactly that cell; on the 20 by 10 playfield the write
is always in range, so stamping never fails. -/
theorem set_mino_spec (m : Matrix) (mino : Mino) (hwf : MatrixWF m)
    (hr : m.rows = 20) (hc : m.cols = 10) :
    (position_outside_render_bounds mino.col mino.row = true → m.set_mino mino = some m) ∧
    (position_outside_render_bounds mino.col mino.row = false →
      m.set_mino mino =
        some { m with matrix := m.matrix.set mino.row.toNat
                        ((m.matrix.getD mino.row.toNat []).set mino.col.toNat
                          (some mino.color)) }) := by
  constructor
  · intro h
    simp [Matrix.set_mino, h]
  · intro h
    have hb : mino.col < 10 ∧ 0 ≤ mino.col ∧ mino.row < 20 ∧ 0 ≤ mino.row := by
      simp only [position_outside_render_bounds, x_position_outside_bounds,
        x_position_outside_left_bound, x_position_outside_right_bound,
        y_position_outside_bounds, y_position_outside_top_bound,
        y_position_outside_bottom_bound, MATRIX_WIDTH, MATRIX_HEIGHT, Bool.or_eq_false_iff,
        decide_eq_false_iff_not, not_lt, not_le, Nat.cast_ofNat] at h
      omega
    have hrowlt : mino.row.toNat < m.matrix.length := by
      rw [hwf.1, hr]
      omega
    obtain ⟨R, hR⟩ : ∃ R, m.matrix[mino.row.toNat]? = some R :=
      ⟨_, List.getElem?_eq_getElem hrowlt⟩
    have hRD : m.matrix.getD mino.row.toNat [] = R := by
      rw [List.getD_eq_getElem?_getD, hR]
      rfl
    have hmem : R ∈ m.matrix := by
      rw [List.getElem?_eq_getElem hrowlt] at hR
      cases hR
      exact List.getElem_mem hrowlt
    have hcollt : mino.col.toNat < R.length := by
      rw [hwf.2 _ hmem, hc]
      omega
    rw [hRD]
    simp [Matrix.set_mino, h, hR, hcollt]

/-- C9 (amended): `apply_movement` dispatches Left, Right and Down to
`move_position` with deltas (-1, 0), (1, 0) and (0, -1), dispatches
Rotate to `rotate`, and for Drop performs no locking and leaves the
active piece and the playfield unchanged; a rejected move leaves the
whole game state unchanged.  The Rust function returns unit, so it
reports nothing. -/
theorem apply_movement_spec (gs : GameState) (d : RotationDirection) :
    (gs.apply_movement (.Rotate d)).1 =
        { gs with tetrimino := gs.tetrimino.rotate d gs.matrix } ∧
    (gs.apply_movement .Left).1 =
        { gs with tetrimino := (gs.tetrimino.move_position (-1) 0 gs.matrix).2 } ∧
    (gs.apply_movement .Right).1 =
        { gs with tetrimino := (gs.tetrimino.move_position 1 0 gs.matrix).2 } ∧
    (gs.apply_movement .Down).1 =
        { gs with tetrimino := (gs.tetrimino.move_position 0 (-1) gs.matrix).2 } ∧
    gs.apply_movement .Drop = (gs, ()) ∧
    (gs.tetrimino.position_invalid (-1) 0 gs.matrix ≠ none →
      (gs.apply_movement .Left).1 = gs) ∧
    (gs.tetrimino.position_invalid 1 0 gs.matrix ≠ none →
      (gs.apply_movement .Right).1 = gs) ∧
    (gs.tetrimino.position_invalid 0 (-1) gs.matrix ≠ none →
      (gs.apply_movement .Down).1 = gs) := by
  refine ⟨rfl, rfl, rfl, rfl, rfl, ?_, ?_, ?_⟩ <;>
    intro h <;>
    simp [GameState.apply_movement, move_position_of_invalid _ _ _ _ h]

/-- C9 counterexample: the Left command really is rejected in
`gsLeftWall`, yet no reading of `apply_movement`'s return value can
report `false` for it and `true` for a Drop command, because the Rust
function returns unit. -/
theorem apply_movement_reports_nothing :
    (gsLeftWall.tetrimino.move_position (-1) 0 gsLeftWall.matrix).1 = false ∧
    ¬∃ f : Unit → Bool,
      f (gsLeftWall.apply_movement .Left).2 = false ∧
      f (gsLeftWall.apply_movement .Drop).2 = true := by
  constructor
  · decide
  · rintro ⟨f, h1, h2⟩
    have e1 : (gsLeftWall.apply_movement .Left).2 = () := rfl
    have e2 : (gsLeftWall.apply_movement .Drop).2 = () := rfl
    rw [e1] at h1
    rw [e2] at h2
    rw [h1] at h2
    exact Bool.false_ne_true h2

/-- C10: the bounds-checked cell read is total: it returns `none` for
any index outside the declared dimensions or for an empty cell, and for
an occupied in-range cell it returns the stored color tagged with the
queried row and column. -/
theorem get_mino_total_spec (m : Matrix) (row col : Nat) (hwf : MatrixWF m) :
    ((m.rows ≤ row ∨ m.cols ≤ col) → m.get_mino row col = none) ∧
    (row < m.rows → col < m.cols →
      m.get_mino row col =
        ((m.matrix.getD row []).getD col none).map fun color =>
          (⟨(col : Int), (row : Int), color⟩ : Mino)) := by
  constructor
  · intro h
    rcases Nat.lt_or_ge row m.rows with hrow | hrow
    · have hcol : m.cols ≤ col := by
        rcases h with h | h
        · omega
        · exact h
      have hrowlt : row < m.matrix.length := by rw [hwf.1]; exact hrow
      obtain ⟨R, hR⟩ : ∃ R, m.matrix[row]? = some R :=
        ⟨_, List.getElem?_eq_getElem hrowlt⟩
      have hmem : R ∈ m.matrix := by
        rw [List.getElem?_eq_getElem hrowlt] at hR
        cases hR
        exact List.getElem_mem hrowlt
      have hnone : R[col]? = none := by
        refine List.getElem?_eq_none ?_
        rw [hwf.2 _ hmem]
        exact hcol
      simp [Matrix.get_mino, hR, hnone]
    · have hget : m.matrix[row]? = none := by
        refine List.getElem?_eq_none ?_
        rw [hwf.1]
        exact hrow
      simp [Matrix.get_mino, hget]
  · intro hrow hcol
    have hrowlt : row < m.matrix.length := by rw [hwf.1]; exact hrow
    obtain ⟨R, hR⟩ : ∃ R, m.matrix[row]? = some R :=
      ⟨_, List.getElem?_eq_getElem hrowlt⟩
    have hRD : m.matrix.getD row [] = R := by
      rw [List.getD_eq_getElem?_getD, hR]
      rfl
    have hmem : R ∈ m.matrix := by
      rw [List.getElem?_eq_getElem hrowlt] at hR
      cases hR
      exact List.getElem_mem hrowlt
    have hcollt : col < R.length := by
      rw [hwf.2 _ hmem]
      exact hcol
    have hc : R[col]? = some (R.getD col none) := by
      rw [List.getD_eq_getElem?_getD, List.getElem?_eq_getElem hcollt]
      rfl
    rw [hRD]
    simp only [Matrix.get_mino, List.get?_eq_getElem?, hR, Option.some_bind]
    rw [hc]

/-! ### Helper lemmas for the next-piece sequencer -/

/-- Unfolding of one step of `drawsBag`. -/
lemma drawsBag_succ (sh : Nat → List TetraminoType) (n : Nat) (s : NextQueue) :
    drawsBag sh (Nat.succ n) s =
      match s.next_bag sh with
      | none => none
      | some (t, s1) =>
        match drawsBag sh n s1 with
        | none => none
        | some (ts, s2) => some (t :: ts, s2) := rfl

/-- Unfolding of one step of `draws`. -/
lemma draws_succ (sh : Nat → List TetraminoType) (n : Nat) (s : NextQueue) :
    draws sh (Nat.succ n) s =
      match s.next sh with
      | none => none
      | some (t, s1) =>
        match draws sh n s1 with
        | none => none
        | some (ts, s2) => some (t :: ts, s2) := rfl

/-- Splitting a run of sequencer draws into two consecutive runs. -/
lemma draws_add (sh : Nat → List TetraminoType) (m n : Nat) :
    ∀ s : NextQueue,
      draws sh (m + n) s =
        match draws sh m s with
        | none => none
        | some (ts, s1) =>
          match draws sh n s1 with
          | none => none
          | some (us, s2) => some (ts ++ us, s2) := by
  induction m with
  | zero =>
    intro s
    rw [Nat.zero_add]
    have h0 : draws sh 0 s = some ([], s) := rfl
    rw [h0]
    cases h : draws sh n s with
    | none => simp [h]
    | some p =>
      cases p
      simp [h]
  | succ m ih =>
    intro s
    rw [Nat.succ_add, draws_succ, draws_succ]
    cases hnext : s.next sh with
    | none => rfl
    | some p =>
      obtain ⟨t, s1⟩ := p
      dsimp only
      rw [ih s1]
      cases h1 : draws sh m s1 with
      | none => rfl
      | some q =>
        obtain ⟨ts, s2⟩ := q
        dsimp only
        cases h2 : draws sh n s2 with
        | none => rfl
        | some r =>
          obtain ⟨us, s3⟩ := r
          rfl

/-- Popping from the back of a nonempty bag never triggers a refill:
`n` bag draws from a bag of at least `n` kinds return its last `n`
kinds, newest-first, leaving the first `length - n` kinds. -/
lemma drawsBag_consume (sh : Nat → List TetraminoType) :
    ∀ (n : Nat) (bag q : List TetraminoType) (rng : Nat),
      n ≤ bag.length →
      drawsBag sh n ⟨q, bag, rng⟩ =
        some ((bag.reverse).take n, ⟨q, bag.take (bag.length - n), rng⟩) := by
  intro n
  induction n with
  | zero =>
    intro bag q rng h
    have h0 : drawsBag sh 0 ⟨q, bag, rng⟩ = some ([], ⟨q, bag, rng⟩) := rfl
    rw [h0]
    simp
  | succ n ih =>
    intro bag q rng h
    rcases List.eq_nil_or_concat bag with rfl | ⟨ys, y, rfl⟩
    · simp at h
    · simp only [List.concat_eq_append] at h ⊢
      have hlen : (ys ++ [y]).length = ys.length + 1 := by simp
      have hne : (ys ++ [y]).isEmpty = false := by simp
      have hnb : NextQueue.next_bag sh ⟨q, ys ++ [y], rng⟩ =
          some (y, ⟨q, ys, rng⟩) := by
        simp [NextQueue.next_bag, hne, List.getLast?_concat, List.dropLast_concat]
      rw [drawsBag_succ, hnb]
      dsimp only
      rw [ih ys q rng (by omega)]
      have htake : (ys ++ [y]).take ((ys ++ [y]).length - (n + 1)) =
          ys.take (ys.length - n) := by
        rw [hlen, Nat.add_sub_add_right]
        exact List.take_append_of_le_length (by omega)
      have hrev : ((ys ++ [y]).reverse).take (n + 1) = y :: (ys.reverse.take n) := by
        rw [List.reverse_append]
        simp
      rw [htake, hrev]

/-- Seven-kind lists split as a head and a six-element tail. -/
lemma exists_cons_of_length_seven {α : Type} (l : List α) (h : l.length = 7) :
    ∃ a t, l = a :: t ∧ t.length = 6 := by
  cases l with
  | nil => simp at h
  | cons a t =>
    refine ⟨a, t, rfl, ?_⟩
    simpa using h

/-- A refill step: one bag draw from an empty bag fills the bag from
the shuffle source, advances the generator, and pops the new bag's
last kind. -/
lemma next_bag_refill (sh : Nat → List TetraminoType) (q : List TetraminoType) (rng : Nat)
    (a : TetraminoType) (t : List TetraminoType) (hsh : sh rng = a :: t) :
    NextQueue.next_bag sh ⟨q, [], rng⟩ =
      some ((a :: t).getLast (by simp), ⟨q, (a :: t).dropLast, rng + 1⟩) := by
  simp only [NextQueue.next_bag, List.isEmpty_nil, if_true, hsh]
  rw [List.getLast?_eq_getLast _ (by simp)]

/-- Six bag draws from an empty bag: the refill happens immediately,
and the six draws are the last six kinds of the refill bag,
newest-first, leaving its first kind in the bag. -/
lemma drawsBag_six (sh : Nat → List TetraminoType) (q : List TetraminoType) (rng : Nat)
    (h7 : (sh rng).length = 7) :
    drawsBag sh 6 ⟨q, [], rng⟩ =
      some (((sh rng).reverse).take 6, ⟨q, (sh rng).take 1, rng + 1⟩) := by
  obtain ⟨a, t, hsh, ht6⟩ := exists_cons_of_length_seven (sh rng) h7
  have h6 : drawsBag sh 6 ⟨q, [], rng⟩ =
      match drawsBag sh 5 ⟨q, (a :: t).dropLast, rng + 1⟩ with
      | none => none
      | some (ts, s2) => some ((a :: t).getLast (by simp) :: ts, s2) := by
    rw [show (6 : Nat) = Nat.succ 5 from rfl, drawsBag_succ,
      next_bag_refill sh q rng a t hsh]
  have hdrop : ((a :: t).dropLast).length = 6 := by
    rw [List.length_dropLast]
    rw [hsh] at h7
    omega
  rw [h6, drawsBag_consume sh 5 ((a :: t).dropLast) q (rng + 1) (by omega)]
  have hlast : (a :: t).getLast (by simp) :: (((a :: t).dropLast).reverse.take 5) =
      ((a :: t).reverse).take 6 := by
    conv_rhs => rw [← List.dropLast_append_getLast (l := a :: t) (by simp)]
    rw [List.reverse_append]
    simp
  have htake1 : ((a :: t).dropLast).take (6 - 5) = (a :: t).take 1 := by
    rcases t with _ | ⟨b, t2⟩
    · simp at ht6
    · simp [List.dropLast]
  rw [hsh]
  rw [← hlast, ← htake1]
  rw [hdrop]

/-- The freshly constructed sequencer is exactly the bag-boundary state
for bag 0. -/
lemma mkDefault_eq (sh : Nat → List TetraminoType) (h7 : (sh 0).length = 7) :
    NextQueue.mkDefault sh = some (blockState sh 0) := by
  unfold NextQueue.mkDefault
  rw [drawsBag_six sh [] 0 h7]
  simp [blockState]

/-- Splitting a run of bag draws into two consecutive runs. -/
lemma drawsBag_add (sh : Nat → List TetraminoType) (m n : Nat) :
    ∀ s : NextQueue,
      drawsBag sh (m + n) s =
        match drawsBag sh m s with
        | none => none
        | some (ts, s1) =>
          match drawsBag sh n s1 with
          | none => none
          | some (us, s2) => some (ts ++ us, s2) := by
  induction m with
  | zero =>
    intro s
    rw [Nat.zero_add]
    have h0 : drawsBag sh 0 s = some ([], s) := rfl
    rw [h0]
    cases h : drawsBag sh n s with
    | none => simp [h]
    | some p =>
      cases p
      simp [h]
  | succ m ih =>
    intro s
    rw [Nat.succ_add, drawsBag_succ, drawsBag_succ]
    cases hnext : s.next_bag sh with
    | none => rfl
    | some p =>
      obtain ⟨t, s1⟩ := p
      dsimp only
      rw [ih s1]
      cases h1 : drawsBag sh m s1 with
      | none => rfl
      | some q =>
        obtain ⟨ts, s2⟩ := q
        dsimp only
        cases h2 : drawsBag sh n s2 with
        | none => rfl
        | some r =>
          obtain ⟨us, s3⟩ := r
          rfl

/-- Closed form of one bag draw: the working list is the bag itself, or
the fresh shuffle when the bag is empty; its last element is drawn and
the queue passes through untouched. -/
lemma next_bag_eq (sh : Nat → List TetraminoType) (s : NextQueue) :
    s.next_bag sh =
      ((if s.bag.isEmpty then sh s.rng else s.bag).getLast?).map fun t =>
        (t, (⟨s.queue, (if s.bag.isEmpty then sh s.rng else s.bag).dropLast,
              if s.bag.isEmpty then s.rng + 1 else s.rng⟩ : NextQueue)) := by
  unfold NextQueue.next_bag
  cases hb : s.bag.isEmpty <;>
    simp only [hb, if_true, if_false, Bool.false_eq_true] <;>
    cases hl : (if s.bag.isEmpty then sh s.rng else s.bag).getLast? <;>
    simp_all

/-- The bag draws underlying a run of sequencer draws determine the
sequencer outputs: the queue acts as a FIFO in front of the bag
stream, so `n` sequencer draws return the first `n` elements of the
initial queue followed by the bag draws, and leave the rest queued. -/
lemma draws_of_drawsBag (sh : Nat → List TetraminoType) :
    ∀ (n : Nat) (q bag : List TetraminoType) (rng : Nat) (bouts bag2 : List TetraminoType)
      (rng2 : Nat),
      drawsBag sh n ⟨[], bag, rng⟩ = some (bouts, ⟨[], bag2, rng2⟩) →
      draws sh n ⟨q, bag, rng⟩ =
        some ((q ++ bouts).take n, ⟨(q ++ bouts).drop n, bag2, rng2⟩) := by
  intro n
  induction n with
  | zero =>
    intro q bag rng bouts bag2 rng2 h
    have h0 : drawsBag sh 0 (⟨[], bag, rng⟩ : NextQueue) = some ([], ⟨[], bag, rng⟩) := rfl
    rw [h0] at h
    injection h with h
    injection h with hout hstate
    cases hout
    cases hstate
    simp [draws]
  | succ n ih =>
    intro q bag rng bouts bag2 rng2 h
    rw [drawsBag_succ, next_bag_eq] at h
    cases hl : (if bag.isEmpty then sh rng else bag).getLast? with
    | none =>
      rw [hl] at h
      rw [Option.map_none'] at h
      exact Option.noConfusion h
    | some t =>
      rw [hl] at h
      rw [Option.map_some'] at h
      dsimp only at h
      cases hrest : drawsBag sh n ⟨[], (if bag.isEmpty then sh rng else bag).dropLast,
          if bag.isEmpty then rng + 1 else rng⟩ with
      | none =>
        rw [hrest] at h
        cases h
      | some pr =>
        obtain ⟨ts, s2⟩ := pr
        rw [hrest] at h
        dsimp only at h
        injection h with h
        injection h with hout hstate
        cases hout
        cases hstate
        have hnbq : NextQueue.next_bag sh ⟨q, bag, rng⟩ =
            some (t, ⟨q, (if bag.isEmpty then sh rng else bag).dropLast,
              if bag.isEmpty then rng + 1 else rng⟩) := by
          rw [next_bag_eq]
          dsimp only
          rw [hl]
          rfl
        rw [draws_succ]
        cases q with
        | nil =>
          rw [show NextQueue.next sh ⟨[], bag, rng⟩ =
              some (t, ⟨[], (if bag.isEmpty then sh rng else bag).dropLast,
                if bag.isEmpty then rng + 1 else rng⟩) by
            unfold NextQueue.next
            rw [hnbq]
            rfl]
          dsimp only
          rw [ih [] _ _ ts _ _ hrest]
          simp
        | cons q0 qs =>
          rw [show NextQueue.next sh ⟨q0 :: qs, bag, rng⟩ =
              some (q0, ⟨qs ++ [t], (if bag.isEmpty then sh rng else bag).dropLast,
                if bag.isEmpty then rng + 1 else rng⟩) by
            unfold NextQueue.next
            rw [hnbq]
            rfl]
          dsimp only
          rw [ih (qs ++ [t]) _ _ ts _ _ hrest]
          dsimp only
          rw [show (q0 :: qs) ++ t :: ts = q0 :: ((qs ++ [t]) ++ ts) by simp]
          rfl

/-- In a seven-element list, the first six draws of the reversed list
followed by its head reconstitute the whole reversed list. -/
lemma rev_take_six {α : Type} (l : List α) (h : l.length = 7) :
    l.reverse.take 6 ++ (l.take 1).reverse = l.reverse := by
  obtain ⟨a, t, rfl, ht6⟩ := exists_cons_of_length_seven l h
  rw [List.reverse_cons]
  have h6 : t.reverse.length = 6 := by simp [ht6]
  rw [List.take_append_of_le_length (by omega), List.take_of_length_le (by omega)]
  simp

/-- One whole bag flows through the sequencer between consecutive bag
boundaries: seven draws from the boundary state of bag `j` output bag
`j` back-to-front and reach the boundary state of bag `j + 1`. -/
lemma draws_block (sh : Nat → List TetraminoType) (j : Nat)
    (h7 : (sh j).length = 7) (h71 : (sh (j + 1)).length = 7) :
    draws sh 7 (blockState sh j) = some ((sh j).reverse, blockState sh (j + 1)) := by
  have hlen1 : ((sh j).take 1).length = 1 := by
    rw [List.length_take]
    omega
  have hbag1 : drawsBag sh 1 ⟨[], (sh j).take 1, j + 1⟩ =
      some (((sh j).take 1).reverse, ⟨[], [], j + 1⟩) := by
    rw [drawsBag_consume sh 1 ((sh j).take 1) [] (j + 1) (by omega)]
    rw [List.take_of_length_le (by simp [hlen1]), hlen1]
    simp
  have hbag6 : drawsBag sh 6 ⟨[], [], j + 1⟩ =
      some (((sh (j + 1)).reverse).take 6, ⟨[], (sh (j + 1)).take 1, j + 2⟩) :=
    drawsBag_six sh [] (j + 1) h71
  have hbag7 : drawsBag sh 7 ⟨[], (sh j).take 1, j + 1⟩ =
      some (((sh j).take 1).reverse ++ ((sh (j + 1)).reverse).take 6,
        ⟨[], (sh (j + 1)).take 1, j + 2⟩) := by
    have hadd := drawsBag_add sh 1 6 ⟨[], (sh j).take 1, j + 1⟩
    rw [show (1 + 6 : Nat) = 7 from rfl] at hadd
    rw [hadd, hbag1]
    dsimp only
    rw [hbag6]
  have hQ := draws_of_drawsBag sh 7 ((sh j).reverse.take 6) ((sh j).take 1) (j + 1)
    (((sh j).take 1).reverse ++ ((sh (j + 1)).reverse).take 6)
    ((sh (j + 1)).take 1) (j + 2) hbag7
  have hsplit : (sh j).reverse.take 6 ++
      (((sh j).take 1).reverse ++ ((sh (j + 1)).reverse).take 6) =
      (sh j).reverse ++ ((sh (j + 1)).reverse).take 6 := by
    rw [← List.append_assoc, rev_take_six (sh j) h7]
  have h7r : ((sh j).reverse).length = 7 := by simp [h7]
  have htake : ((sh j).reverse ++ ((sh (j + 1)).reverse).take 6).take 7 = (sh j).reverse := by
    rw [List.take_append_of_le_length (by omega), List.take_of_length_le (by omega)]
  have hdrop : ((sh j).reverse ++ ((sh (j + 1)).reverse).take 6).drop 7 =
      ((sh (j + 1)).reverse).take 6 := by
    rw [← h7r, List.drop_left]
  show draws sh 7 ⟨(sh j).reverse.take 6, (sh j).take 1, j + 1⟩ = _
  rw [hQ, hsplit, htake, hdrop]
  rfl

/-- Iterating whole bags from the initial boundary state: `7 j` draws
land exactly on the boundary state of bag `j`. -/
lemma draws_blocks (sh : Nat → List TetraminoType) (hlen : ∀ i, (sh i).length = 7) :
    ∀ j : Nat, ∃ outs, draws sh (7 * j) (blockState sh 0) = some (outs, blockState sh j) := by
  intro j
  induction j with
  | zero => exact ⟨[], rfl⟩
  | succ j ih =>
    obtain ⟨outs, hj⟩ := ih
    have hadd := draws_add sh (7 * j) 7 (blockState sh 0)
    rw [show 7 * j + 7 = 7 * (j + 1) by ring] at hadd
    refine ⟨outs ++ (sh j).reverse, ?_⟩
    rw [hadd, hj]
    dsimp only
    rw [draws_block sh j (hlen j) (hlen (j + 1))]

/-- Each kind occurs exactly once in the catalog enumeration. -/
lemma count_all_eq_one (k : TetraminoType) : TetraminoType.all.count k = 1 := by
  cases k <;> decide

/-- C6: with any injected shuffle family producing permutations of the
full catalog, the freshly constructed sequencer reaches every bag
boundary `7 j` draws in, the next 7 draws output one whole shuffled bag
— each of the seven kinds exactly once, no repeats — and a bag draw
refills the bag from a fresh shuffle exactly when the bag is empty. -/
theorem bag_fairness (sh : Nat → List TetraminoType)
    (hperm : ∀ i, (sh i).Perm TetraminoType.all) (j : Nat) :
    (∃ s0, NextQueue.mkDefault sh = some s0 ∧
      ∃ pre s1, draws sh (7 * j) s0 = some (pre, s1) ∧
        draws sh 7 s1 = some ((sh j).reverse, blockState sh (j + 1)) ∧
        ((sh j).reverse).Perm TetraminoType.all ∧
        ∀ k : TetraminoType, ((sh j).reverse).count k = 1) ∧
    (∀ s : NextQueue, s.bag.isEmpty = true →
      s.next_bag sh = ((sh s.rng).getLast?).map fun t =>
        (t, (⟨s.queue, (sh s.rng).dropLast, s.rng + 1⟩ : NextQueue))) ∧
    (∀ s : NextQueue, s.bag.isEmpty = false →
      s.next_bag sh = (s.bag.getLast?).map fun t =>
        (t, (⟨s.queue, s.bag.dropLast, s.rng⟩ : NextQueue))) := by
  have hlen : ∀ i, (sh i).length = 7 := fun i => by
    rw [(hperm i).length_eq]
    rfl
  refine ⟨?_, ?_, ?_⟩
  · obtain ⟨pre, hpre⟩ := draws_blocks sh hlen j
    refine ⟨blockState sh 0, mkDefault_eq sh (hlen 0), pre, blockState sh j, hpre,
      draws_block sh j (hlen j) (hlen (j + 1)), ?_, ?_⟩
    · exact (List.reverse_perm (sh j)).trans (hperm j)
    · intro k
      rw [List.count_reverse, List.Perm.count_eq (hperm j), count_all_eq_one]
  · intro s hs
    rw [next_bag_eq, hs]
    simp
  · intro s hs
    rw [next_bag_eq, hs]
    simp

/-! ### Witnesses: the claim theorems evaluated at concrete inputs -/

/-- Witness for C1: for the floor-stuck O piece the rotation is a
complete no-op. -/
theorem rotate_applies_fully_or_noop_witness :
    Tetramino.rotate oStuck .Clockwise new_matrix = oStuck := by
  rcases rotate_applies_fully_or_noop oStuck .Clockwise new_matrix with
    ⟨h, _⟩ | ⟨k, hk, hvalid, _⟩
  · exact h
  · exfalso
    have e : oStuck.tetramino_type.get_kick_offset_data oStuck.rotation
        (oStuck.rotation.rotated .Clockwise) = [((0 : Int), (-1 : Int))] := by decide
    rw [e] at hk
    simp only [List.mem_singleton] at hk
    rw [hk] at hvalid
    have : ¬(Tetramino.position_invalid
        { oStuck with tile_grid := oStuck.tile_grid.rotatedGrid .Clockwise,
                      rotation := oStuck.rotation.rotated .Clockwise }
        ((0 : Int), (-1 : Int)).1 ((0 : Int), (-1 : Int)).2 new_matrix = none) := by decide
    exact this hvalid

/-- Witness for C2: a far-left translation of the spawned T piece is
rejected without moving it, and a one-column right translation succeeds
and shifts the anchor by exactly that column. -/
theorem move_position_spec_witness :
    (Tetramino.new .T).move_position (-4) 0 new_matrix = (false, Tetramino.new .T) ∧
    (Tetramino.new .T).move_position 1 0 new_matrix =
      (true, { Tetramino.new .T with x_pos := 4 }) := by
  constructor
  · exact (move_position_spec (Tetramino.new .T) (-4) 0 new_matrix).1 (by decide)
  · have h := (move_position_spec (Tetramino.new .T) 1 0 new_matrix).2 (by decide)
    rw [h]
    decide

/-- Witness for C3: rotating `pieceKick` over `boardKick` collides at
kick candidates 0 and 1 and applies exactly candidate 2, the offset
(2, 0). -/
theorem rotate_kick_order_witness :
    pieceKick.rotate .Clockwise boardKick =
      { pieceKick with tile_grid := pieceKick.tile_grid.rotatedGrid .Clockwise,
                       rotation := Rotation.East, x_pos := 5, y_pos := 4 } := by
  have h := rotate_kick_order pieceKick .Clockwise boardKick
    (by decide) (by decide) (by decide) (by decide)
  rw [h]
  decide

/-- Witness for C4 (amended): the T piece North-to-East candidate list
has 5 entries and its second entry is the table-row difference (-1, 0). -/
theorem get_kick_offset_data_spec_witness :
    (TetraminoType.T.get_kick_offset_data Rotation.North Rotation.East).length = 5 ∧
    (TetraminoType.T.get_kick_offset_data Rotation.North Rotation.East).get ⟨1, by decide⟩ =
      (-1, 0) := by
  constructor
  · have h := (get_kick_offset_data_spec .T .North .East).1
    rw [h]
    decide
  · have h := (get_kick_offset_data_spec .T .North .East).2 1 (by decide)
    rw [h]
    decide

/-- Witness for C5: column 3, row 25 passes gameplay bounds although it
is above the visible field, and the piece hovering entirely above the
field is a valid position. -/
theorem gameplay_bounds_spec_witness :
    position_outside_bounds 3 25 = false ∧
    highPiece.position_invalid 0 0 new_matrix = none := by
  constructor
  · have h := gameplay_bounds_spec.1 3 25
    cases hb : position_outside_bounds 3 25 with
    | false => rfl
    | true => exact absurd (h.mp hb) (by decide)
  · exact gameplay_bounds_spec.2 highPiece (by decide)

/-- Witness for C6: with the identity shuffle family, the second bag of
seven draws after the first bag boundary is again a permutation of all
seven kinds. -/
theorem bag_fairness_witness :
    ∃ s0, NextQueue.mkDefault shAll = some s0 ∧
      ∃ pre s1, draws shAll (7 * 1) s0 = some (pre, s1) ∧
        draws shAll 7 s1 = some ((shAll 1).reverse, blockState shAll (1 + 1)) ∧
        ((shAll 1).reverse).Perm TetraminoType.all ∧
        ∀ k : TetraminoType, ((shAll 1).reverse).count k = 1 :=
  (bag_fairness shAll (fun _ => List.Perm.refl TetraminoType.all) 1).1

/-- Witness for C8: on the empty 20 by 10 playfield, a cell at column
-1 is silently discarded while the in-bounds cell (3, 0) is written. -/
theorem set_mino_spec_witness :
    (Matrix.new 20 10 .North).set_mino ⟨-1, 5, 7⟩ = some (Matrix.new 20 10 .North) ∧
    (Matrix.new 20 10 .North).set_mino ⟨3, 0, 5⟩ =
      some { Matrix.new 20 10 .North with
             matrix := (Matrix.new 20 10 .North).matrix.set 0
               (((Matrix.new 20 10 .North).matrix.getD 0 []).set 3 (some 5)) } := by
  constructor
  · exact (set_mino_spec (Matrix.new 20 10 .North) ⟨-1, 5, 7⟩ (by decide) rfl rfl).1 (by decide)
  · exact (set_mino_spec (Matrix.new 20 10 .North) ⟨3, 0, 5⟩ (by decide) rfl rfl).2 (by decide)

/-- Witness for C9 (amended): in `gsLeftWall` the rejected Left command
leaves the whole game state unchanged, and Drop is a no-op. -/
theorem apply_movement_spec_witness :
    (gsLeftWall.apply_movement .Left).1 = gsLeftWall ∧
    gsLeftWall.apply_movement .Drop = (gsLeftWall, ()) := by
  constructor
  · exact (apply_movement_spec gsLeftWall .Clockwise).2.2.2.2.2.1 (by decide)
  · exact (apply_movement_spec gsLeftWall .Clockwise).2.2.2.2.1

/-- Witness for C10: on the small concrete matrix the read is `none`
out of range, the stored color tagged with its coordinates at the
occupied cell, and `none` at an empty in-range cell. -/
theorem get_mino_total_spec_witness :
    mtxSmall.get_mino 5 0 = none ∧
    mtxSmall.get_mino 0 0 = some ⟨0, 0, 5⟩ ∧
    mtxSmall.get_mino 0 1 = none := by
  refine ⟨?_, ?_, ?_⟩
  · exact (get_mino_total_spec mtxSmall 5 0 (by decide)).1 (by decide)
  · have h := (get_mino_total_spec mtxSmall 0 0 (by decide)).2 (by decide) (by decide)
    rw [h]
    decide
  · have h := (get_mino_total_spec mtxSmall 0 1 (by decide)).2 (by decide) (by decide)
    rw [h]
    decide

end ConsoleTetris
